import Mathlib

/-!
Verification of the scope-diff, user-lifecycle and pagination logic of the
Okta Terraform provider (`okta` package), as a shallow embedding in Lean 4.

Pure computations (string-list diffs, status mapping) are embedded as Lean
functions that mirror the Go source line by line.  Stateful CRUD handlers are
embedded as trace-producing functions: each HTTP call the handler would issue
is an element of an inductive call type, the remote responses are parameters
(page lists, current-grant lists) and the success or failure of each mutating
call is given by an oracle `ok`; a handler returns the list of calls it issued
together with a success flag, aborting at the first failed call exactly where
the Go code returns an error.
-/

namespace Okta

/-- Membership test on a string list, mirroring the provider's `contains`
helper (defined in the repository's utils file, outside the sampled sources):
it loops over the list and returns true when an element equals the target. -/
def containsStr : List String → String → Bool
  | [], _ => false
  | y :: ys, x => if y == x then true else containsStr ys x

/-- Embedding of `okta.OAuth2ScopeConsentGrant`: the fields the sampled code
reads or writes (`Issuer`, `ScopeId` and the grant `Id`). -/
structure OAuth2ScopeConsentGrant where
  issuer : String
  scopeId : String
  id : String
deriving DecidableEq, Repr

/-- Embedding of `newOAuthApiScope` (resource_okta_app_oauth_api_scope.go):
builds a consent grant from a scope id and an issuer; the `Id` field is left
at its zero value. -/
def newOAuthApiScope (scopeId issuer : String) : OAuth2ScopeConsentGrant :=
  { issuer := issuer, scopeId := scopeId, id := "" }

/-- Embedding of `getOAuthApiScopeList`: maps a list of scope names to consent
grant structs sharing one issuer. -/
def getOAuthApiScopeList (scopeIds : List String) (issuer : String) :
    List OAuth2ScopeConsentGrant :=
  scopeIds.map (fun scopeId => newOAuthApiScope scopeId issuer)

/-- Embedding of `getOAuthApiScopeUpdateLists` (lines 211-242 of
resource_okta_app_oauth_api_scope.go).  `desiredScopes` is the string list the
Go code extracts from the resource state, `fromGrants` the current grant list
returned by the API.  The two loops that append every `currentScope` not
contained in `desiredScopes` to `revokeList` and every `desiredScope` not
contained in `currentScopes` to `grantList` are order- and
multiplicity-preserving, hence `List.filter`. -/
def getOAuthApiScopeUpdateLists (desiredScopes : List String)
    (fromGrants : List OAuth2ScopeConsentGrant) : List String × List String :=
  let currentScopes := fromGrants.map (fun g => g.scopeId)
  let revokeList := currentScopes.filter (fun c => !(containsStr desiredScopes c))
  let grantList := desiredScopes.filter (fun s => !(containsStr currentScopes s))
  (grantList, revokeList)

theorem containsStr_iff (l : List String) (x : String) :
    containsStr l x = true ↔ x ∈ l := by
  induction l with
  | nil => simp [containsStr]
  | cons y ys ih =>
      cases h : y == x with
      | true =>
          have hy : y = x := by simpa using h
          simp [containsStr, h, hy]
      | false =>
          have hy : y ≠ x := by simpa using h
          simp [containsStr, h, ih, List.mem_cons, (Ne.symm hy : x ≠ y)]

theorem mem_grantList (desiredScopes : List String)
    (fromGrants : List OAuth2ScopeConsentGrant) (x : String) :
    x ∈ (getOAuthApiScopeUpdateLists desiredScopes fromGrants).1 ↔
      x ∈ desiredScopes ∧ x ∉ fromGrants.map (fun g => g.scopeId) := by
  simp only [getOAuthApiScopeUpdateLists, List.mem_filter, Bool.not_eq_true',
    and_congr_right_iff]
  intro _
  rw [← containsStr_iff (fromGrants.map (fun g => g.scopeId)) x]
  simp

theorem mem_revokeList (desiredScopes : List String)
    (fromGrants : List OAuth2ScopeConsentGrant) (x : String) :
    x ∈ (getOAuthApiScopeUpdateLists desiredScopes fromGrants).2 ↔
      x ∈ fromGrants.map (fun g => g.scopeId) ∧ x ∉ desiredScopes := by
  simp only [getOAuthApiScopeUpdateLists, List.mem_filter, Bool.not_eq_true',
    and_congr_right_iff]
  intro _
  rw [← containsStr_iff desiredScopes x]
  simp

/-- C1: the grant list holds exactly the desired scope ids absent from the
current grants' scope ids, and the revoke list exactly the current scope ids
absent from the desired list. -/
theorem getOAuthApiScopeUpdateLists_mem (desiredScopes : List String)
    (fromGrants : List OAuth2ScopeConsentGrant) (x : String) :
    (x ∈ (getOAuthApiScopeUpdateLists desiredScopes fromGrants).1 ↔
      x ∈ desiredScopes ∧ x ∉ fromGrants.map (fun g => g.scopeId)) ∧
    (x ∈ (getOAuthApiScopeUpdateLists desiredScopes fromGrants).2 ↔
      x ∈ fromGrants.map (fun g => g.scopeId) ∧ x ∉ desiredScopes) :=
  ⟨mem_grantList desiredScopes fromGrants x, mem_revokeList desiredScopes fromGrants x⟩

/-- C2: on duplicate-free inputs the two output lists are disjoint and their
union, as a finite set, is the symmetric difference of the desired-scope set
and the current-scope set. -/
theorem getOAuthApiScopeUpdateLists_partition (desiredScopes : List String)
    (fromGrants : List OAuth2ScopeConsentGrant)
    (_hd : desiredScopes.Nodup)
    (_hc : (fromGrants.map (fun g => g.scopeId)).Nodup) :
    (getOAuthApiScopeUpdateLists desiredScopes fromGrants).1.Disjoint
      (getOAuthApiScopeUpdateLists desiredScopes fromGrants).2 ∧
    (getOAuthApiScopeUpdateLists desiredScopes fromGrants).1.toFinset ∪
      (getOAuthApiScopeUpdateLists desiredScopes fromGrants).2.toFinset =
    (desiredScopes.toFinset \ (fromGrants.map (fun g => g.scopeId)).toFinset) ∪
      ((fromGrants.map (fun g => g.scopeId)).toFinset \ desiredScopes.toFinset) := by
  constructor
  · intro x hg hr
    rcases (mem_grantList desiredScopes fromGrants x).mp hg with ⟨_, hnc⟩
    rcases (mem_revokeList desiredScopes fromGrants x).mp hr with ⟨hcc, _⟩
    exact hnc hcc
  · ext x
    simp only [Finset.mem_union, Finset.mem_sdiff, List.mem_toFinset,
      mem_grantList, mem_revokeList]

/-- C2 witness: the partition property evaluated on a concrete duplicate-free
input. -/
theorem getOAuthApiScopeUpdateLists_partition_witness :
    (getOAuthApiScopeUpdateLists ["a", "b"]
      [{ issuer := "i", scopeId := "b", id := "1" },
       { issuer := "i", scopeId := "c", id := "2" }]).1.Disjoint
      (getOAuthApiScopeUpdateLists ["a", "b"]
        [{ issuer := "i", scopeId := "b", id := "1" },
         { issuer := "i", scopeId := "c", id := "2" }]).2 ∧
    (getOAuthApiScopeUpdateLists ["a", "b"]
      [{ issuer := "i", scopeId := "b", id := "1" },
       { issuer := "i", scopeId := "c", id := "2" }]).1.toFinset ∪
      (getOAuthApiScopeUpdateLists ["a", "b"]
        [{ issuer := "i", scopeId := "b", id := "1" },
         { issuer := "i", scopeId := "c", id := "2" }]).2.toFinset =
    ((["a", "b"] : List String).toFinset \
        (([{ issuer := "i", scopeId := "b", id := "1" },
           { issuer := "i", scopeId := "c", id := "2" }] :
            List OAuth2ScopeConsentGrant).map (fun g => g.scopeId)).toFinset) ∪
      ((([{ issuer := "i", scopeId := "b", id := "1" },
          { issuer := "i", scopeId := "c", id := "2" }] :
            List OAuth2ScopeConsentGrant).map (fun g => g.scopeId)).toFinset \
        (["a", "b"] : List String).toFinset) :=
  getOAuthApiScopeUpdateLists_partition ["a", "b"]
    [{ issuer := "i", scopeId := "b", id := "1" },
     { issuer := "i", scopeId := "c", id := "2" }]
    (by decide) (by decide)

/-- Mutating API calls issued by the OAuth API scope resource. -/
inductive OAuthApiCall where
  | grantConsentToScope (appId : String) (grant : OAuth2ScopeConsentGrant)
  | revokeScopeConsentGrant (appId : String) (grantId : String)
deriving DecidableEq, Repr

/-- Embedding of `grantOAuthApiScopes`: issues one `GrantConsentToScope` call
per grant struct, returning an error (false) at the first failed call without
issuing the remaining ones.  `ok` tells whether a given call succeeds. -/
def grantOAuthApiScopes (appId : String) (scopeGrants : List OAuth2ScopeConsentGrant)
    (ok : OAuthApiCall → Bool) : List OAuthApiCall × Bool :=
  match scopeGrants with
  | [] => ([], true)
  | g :: rest =>
      let c := OAuthApiCall.grantConsentToScope appId g
      if ok c then
        let r := grantOAuthApiScopes appId rest ok
        (c :: r.1, r.2)
      else ([c], false)

/-- Embedding of `revokeOAuthApiScope`: issues one `RevokeScopeConsentGrant`
call per grant id, returning an error at the first failed call (a 404 being
suppressed counts as success here, folded into `ok`). -/
def revokeOAuthApiScope (appId : String) (ids : List String)
    (ok : OAuthApiCall → Bool) : List OAuthApiCall × Bool :=
  match ids with
  | [] => ([], true)
  | i :: rest =>
      let c := OAuthApiCall.revokeScopeConsentGrant appId i
      if ok c then
        let r := revokeOAuthApiScope appId rest ok
        (c :: r.1, r.2)
      else ([c], false)

/-- Embedding of `getOAuthApiScopeIdMap`: folds the grant list returned by the
listing call into a scope-name-to-grant-id map; a Go map lookup of a missing
key yields the zero value "". -/
def getOAuthApiScopeIdMap (currentScopes : List OAuth2ScopeConsentGrant) :
    String → String :=
  currentScopes.foldl (fun m g => fun k => if k == g.scopeId then g.id else m k)
    (fun _ => "")

/-- Embedding of `resourceAppOAuthApiScopeUpdate` (lines 96-125), restricted to
the mutating calls it issues.  `current` is the grant list the first
`ListScopeConsentGrants` call returns and `current2` the one the second call
(inside `getOAuthApiScopeIdMap`) returns; both GETs are assumed to succeed,
failures of the mutating calls are given by `ok`. -/
def resourceAppOAuthApiScopeUpdate (appId issuer : String)
    (desiredScopes : List String) (current current2 : List OAuth2ScopeConsentGrant)
    (ok : OAuthApiCall → Bool) : List OAuthApiCall × Bool :=
  let lists := getOAuthApiScopeUpdateLists desiredScopes current
  let grantScopeList := getOAuthApiScopeList lists.1 issuer
  let g := grantOAuthApiScopes appId grantScopeList ok
  if g.2 = false then (g.1, false)
  else
    let scopeMap := getOAuthApiScopeIdMap current2
    let revokeListIds := lists.2.map scopeMap
    let r := revokeOAuthApiScope appId revokeListIds ok
    (g.1 ++ r.1, r.2)

theorem grantOAuthApiScopes_all_ok (appId : String)
    (scopeGrants : List OAuth2ScopeConsentGrant) (ok : OAuthApiCall → Bool)
    (h : ∀ c, ok c = true) :
    grantOAuthApiScopes appId scopeGrants ok =
      (scopeGrants.map (OAuthApiCall.grantConsentToScope appId), true) := by
  induction scopeGrants with
  | nil => rfl
  | cons g rest ih => simp [grantOAuthApiScopes, h, ih]

theorem revokeOAuthApiScope_all_ok (appId : String) (ids : List String)
    (ok : OAuthApiCall → Bool) (h : ∀ c, ok c = true) :
    revokeOAuthApiScope appId ids ok =
      (ids.map (OAuthApiCall.revokeScopeConsentGrant appId), true) := by
  induction ids with
  | nil => rfl
  | cons i rest ih => simp [revokeOAuthApiScope, h, ih]

/-- Discriminator for revoke calls. -/
def OAuthApiCall.isRevoke : OAuthApiCall → Bool
  | .revokeScopeConsentGrant _ _ => true
  | .grantConsentToScope _ _ => false

theorem resourceAppOAuthApiScopeUpdate_calls (appId issuer : String)
    (desiredScopes : List String) (current current2 : List OAuth2ScopeConsentGrant)
    (ok : OAuthApiCall → Bool) (hok : ∀ c, ok c = true) :
    (resourceAppOAuthApiScopeUpdate appId issuer desiredScopes current current2 ok).1 =
      (getOAuthApiScopeUpdateLists desiredScopes current).1.map
        (fun s => OAuthApiCall.grantConsentToScope appId (newOAuthApiScope s issuer)) ++
      (getOAuthApiScopeUpdateLists desiredScopes current).2.map
        (fun s => OAuthApiCall.revokeScopeConsentGrant appId
          (getOAuthApiScopeIdMap current2 s)) := by
  simp only [resourceAppOAuthApiScopeUpdate,
    grantOAuthApiScopes_all_ok appId _ ok hok, revokeOAuthApiScope_all_ok appId _ ok hok]
  simp [getOAuthApiScopeList, Function.comp_def]

/-- C3: with every call succeeding and duplicate-free inputs, the update issues
exactly one grant call per scope in desired minus current, its revoke-call
count equals the size of current minus desired (one per scope), and every
revoke call targets the stored grant id of some scope in current minus
desired; in particular no scope in both sets receives any call. -/
theorem resourceAppOAuthApiScopeUpdate_minimal (appId issuer : String)
    (desiredScopes : List String) (current current2 : List OAuth2ScopeConsentGrant)
    (ok : OAuthApiCall → Bool) (hok : ∀ c, ok c = true)
    (hd : desiredScopes.Nodup) (hc : (current.map (fun g => g.scopeId)).Nodup) :
    (∀ s, ((resourceAppOAuthApiScopeUpdate appId issuer desiredScopes current
        current2 ok).1.count
          (OAuthApiCall.grantConsentToScope appId (newOAuthApiScope s issuer)) =
        if s ∈ desiredScopes ∧ s ∉ current.map (fun g => g.scopeId) then 1 else 0)) ∧
    ((resourceAppOAuthApiScopeUpdate appId issuer desiredScopes current
        current2 ok).1.countP OAuthApiCall.isRevoke =
      ((current.map (fun g => g.scopeId)).toFinset \ desiredScopes.toFinset).card) ∧
    (∀ gid, OAuthApiCall.revokeScopeConsentGrant appId gid ∈
        (resourceAppOAuthApiScopeUpdate appId issuer desiredScopes current
          current2 ok).1 →
      ∃ s, s ∈ current.map (fun g => g.scopeId) ∧ s ∉ desiredScopes ∧
        gid = getOAuthApiScopeIdMap current2 s) := by
  rw [resourceAppOAuthApiScopeUpdate_calls appId issuer desiredScopes current
    current2 ok hok]
  refine ⟨?_, ?_, ?_⟩
  · intro s
    rw [List.count_append]
    have hinj : Function.Injective
        (fun s => OAuthApiCall.grantConsentToScope appId (newOAuthApiScope s issuer)) := by
      intro a b hab
      simpa [newOAuthApiScope] using hab
    have h1 : ((getOAuthApiScopeUpdateLists desiredScopes current).1.map
        (fun s => OAuthApiCall.grantConsentToScope appId (newOAuthApiScope s issuer))).count
          (OAuthApiCall.grantConsentToScope appId (newOAuthApiScope s issuer)) =
        (getOAuthApiScopeUpdateLists desiredScopes current).1.count s :=
      List.count_map_of_injective _ _ hinj s
    have h2 : ((getOAuthApiScopeUpdateLists desiredScopes current).2.map
        (fun s => OAuthApiCall.revokeScopeConsentGrant appId
          (getOAuthApiScopeIdMap current2 s))).count
          (OAuthApiCall.grantConsentToScope appId (newOAuthApiScope s issuer)) = 0 := by
      rw [List.count_eq_zero]
      simp
    rw [h1, h2, Nat.add_zero]
    have hnd : (getOAuthApiScopeUpdateLists desiredScopes current).1.Nodup := by
      simpa [getOAuthApiScopeUpdateLists] using hd.filter _
    rw [List.count_eq_of_nodup hnd]
    by_cases hmem : s ∈ desiredScopes ∧ s ∉ current.map (fun g => g.scopeId)
    · rw [if_pos hmem, if_pos ((mem_grantList _ _ _).mpr hmem)]
    · rw [if_neg hmem, if_neg (fun hx => hmem ((mem_grantList _ _ _).mp hx))]
  · rw [List.countP_append]
    have h1 : ((getOAuthApiScopeUpdateLists desiredScopes current).1.map
        (fun s => OAuthApiCall.grantConsentToScope appId (newOAuthApiScope s issuer))).countP
          OAuthApiCall.isRevoke = 0 := by
      rw [List.countP_eq_zero]
      intro c hcm
      rcases List.mem_map.mp hcm with ⟨s, _, rfl⟩
      simp [OAuthApiCall.isRevoke]
    have h2 : ((getOAuthApiScopeUpdateLists desiredScopes current).2.map
        (fun s => OAuthApiCall.revokeScopeConsentGrant appId
          (getOAuthApiScopeIdMap current2 s))).countP
          OAuthApiCall.isRevoke =
        (getOAuthApiScopeUpdateLists desiredScopes current).2.length := by
      rw [List.countP_map, List.countP_eq_length]
      intro c _
      simp [OAuthApiCall.isRevoke, Function.comp]
    rw [h1, h2, Nat.zero_add]
    have hnr : (getOAuthApiScopeUpdateLists desiredScopes current).2.Nodup := by
      simpa [getOAuthApiScopeUpdateLists] using hc.filter _
    rw [← List.toFinset_card_of_nodup hnr]
    congr 1
    ext x
    simp only [List.mem_toFinset, Finset.mem_sdiff, mem_revokeList]
  · intro gid hmem
    rcases List.mem_append.mp hmem with h | h
    · rcases List.mem_map.mp h with ⟨s, _, hs⟩
      exact absurd hs (by simp)
    · rcases List.mem_map.mp h with ⟨s, hsl, hs⟩
      rcases (mem_revokeList desiredScopes current s).mp hsl with ⟨hsc, hsd⟩
      exact ⟨s, hsc, hsd, by simpa using hs.symm⟩

/-- C3 witness: the minimal-call property evaluated on a concrete update with
one scope to grant, one to keep and one to revoke. -/
theorem resourceAppOAuthApiScopeUpdate_minimal_witness :
    ((resourceAppOAuthApiScopeUpdate "app" "iss" ["a", "b"]
        [{ issuer := "iss", scopeId := "b", id := "1" },
         { issuer := "iss", scopeId := "c", id := "2" }]
        [{ issuer := "iss", scopeId := "b", id := "1" },
         { issuer := "iss", scopeId := "c", id := "2" }]
        (fun _ => true)).1.count
      (OAuthApiCall.grantConsentToScope "app" (newOAuthApiScope "a" "iss")) =
      if "a" ∈ ["a", "b"] ∧
          "a" ∉ ([{ issuer := "iss", scopeId := "b", id := "1" },
                  { issuer := "iss", scopeId := "c", id := "2" }] :
              List OAuth2ScopeConsentGrant).map (fun g => g.scopeId) then 1 else 0) :=
  (resourceAppOAuthApiScopeUpdate_minimal "app" "iss" ["a", "b"]
    [{ issuer := "iss", scopeId := "b", id := "1" },
     { issuer := "iss", scopeId := "c", id := "2" }]
    [{ issuer := "iss", scopeId := "b", id := "1" },
     { issuer := "iss", scopeId := "c", id := "2" }]
    (fun _ => true) (fun _ => rfl) (by decide) (by decide)).1 "a"

/-- Okta user status string, as listed in the user resource's status schema
validation and the status-mapping code.  The constant definitions live in a
repository file outside the sampled sources; the values are the Okta API
status strings the spec and the schema validation name. -/
def statusActive : String := "ACTIVE"

/-- Okta user status string "STAGED" (see `statusActive` for provenance). -/
def userStatusStaged : String := "STAGED"

/-- Okta user status string "DEPROVISIONED" (see `statusActive`). -/
def userStatusDeprovisioned : String := "DEPROVISIONED"

/-- Okta user status string "SUSPENDED" (see `statusActive`). -/
def userStatusSuspended : String := "SUSPENDED"

/-- Okta user status string "PASSWORD_EXPIRED" (see `statusActive`). -/
def userStatusPasswordExpired : String := "PASSWORD_EXPIRED"

/-- Okta user status string "RECOVERY" (see `statusActive`). -/
def userStatusRecovery : String := "RECOVERY"

/-- Embedding of `mapStatus` (lines 294-301 of the user resource file):
PASSWORD_EXPIRED and RECOVERY are reported as ACTIVE, everything else is
returned unchanged. -/
def mapStatus (currentStatus : String) : String :=
  if currentStatus == userStatusPasswordExpired || currentStatus == userStatusRecovery
  then statusActive
  else currentStatus

/-- Embedding of the status value `resourceUserRead` stores into the resource
state (line 391: `d.Set("status", mapStatus(user.Status))`), as a function of
the status the API returned. -/
def resourceUserReadStatus (userStatus : String) : String :=
  mapStatus userStatus

/-- C10: mapStatus is idempotent, sends PASSWORD_EXPIRED and RECOVERY to
ACTIVE, fixes every other status, and the status resourceUserRead stores is a
fixed point of mapStatus. -/
theorem mapStatus_idem :
    (∀ s, mapStatus (mapStatus s) = mapStatus s) ∧
    mapStatus userStatusPasswordExpired = statusActive ∧
    mapStatus userStatusRecovery = statusActive ∧
    (∀ s, s ≠ userStatusPasswordExpired → s ≠ userStatusRecovery →
      mapStatus s = s) ∧
    (∀ s, mapStatus (resourceUserReadStatus s) = resourceUserReadStatus s) := by
  have hfix : ∀ s, s ≠ userStatusPasswordExpired → s ≠ userStatusRecovery →
      mapStatus s = s := by
    intro s h1 h2
    simp [mapStatus, h1, h2]
  have hidem : ∀ s, mapStatus (mapStatus s) = mapStatus s := by
    intro s
    by_cases h : (s == userStatusPasswordExpired || s == userStatusRecovery) = true
    · have hs : mapStatus s = statusActive := by rw [mapStatus, if_pos h]
      rw [hs]
      exact hfix statusActive (by decide) (by decide)
    · have hs : mapStatus s = s := by rw [mapStatus, if_neg h]
      rw [hs, hs]
  exact ⟨hidem, by simp [mapStatus, userStatusPasswordExpired, statusActive],
    by simp [mapStatus, userStatusRecovery, statusActive], hfix,
    fun s => hidem s⟩

/-- C10 witness: the fixed-point clauses evaluated at the concrete status
"PROVISIONED". -/
theorem mapStatus_idem_witness :
    mapStatus "PROVISIONED" = "PROVISIONED" :=
  mapStatus_idem.2.2.2.1 "PROVISIONED" (by decide) (by decide)

/-- API call issued by the user delete path. -/
inductive UserDeleteCall where
  | deactivateOrDeleteUser (id : String)
deriving DecidableEq, Repr

/-- Loop body of `ensureUserDelete`: `n` passes remain, `i` is the index of
the next pass; `ok i` tells whether the i-th `DeactivateOrDeleteUser` call
succeeds; the loop stops with an error at the first failed call. -/
def ensureUserDeleteLoop (id : String) (ok : Nat → Bool) :
    Nat → Nat → List UserDeleteCall × Bool
  | 0, _ => ([], true)
  | n + 1, i =>
      if ok i then
        let r := ensureUserDeleteLoop id ok n (i + 1)
        (UserDeleteCall.deactivateOrDeleteUser id :: r.1, r.2)
      else ([UserDeleteCall.deactivateOrDeleteUser id], false)

/-- Embedding of `ensureUserDelete` (lines 534-550): a DEPROVISIONED user gets
one `DeactivateOrDeleteUser` pass, any other status two passes (deprovision
then delete). -/
def ensureUserDelete (id status : String) (ok : Nat → Bool) :
    List UserDeleteCall × Bool :=
  let passes := if status == userStatusDeprovisioned then 1 else 2
  ensureUserDeleteLoop id ok passes 0

/-- C9: when every pass succeeds, ensureUserDelete issues exactly one call for
a DEPROVISIONED user and exactly two calls otherwise, and it stops with an
error at the first failed pass without issuing the remaining pass. -/
theorem ensureUserDelete_passes (id status : String) (ok : Nat → Bool) :
    ((∀ i, ok i = true) →
      ensureUserDelete id status ok =
        (List.replicate (if status == userStatusDeprovisioned then 1 else 2)
          (UserDeleteCall.deactivateOrDeleteUser id), true)) ∧
    (ok 0 = false →
      ensureUserDelete id status ok =
        ([UserDeleteCall.deactivateOrDeleteUser id], false)) ∧
    (status ≠ userStatusDeprovisioned → ok 0 = true → ok 1 = false →
      ensureUserDelete id status ok =
        ([UserDeleteCall.deactivateOrDeleteUser id,
          UserDeleteCall.deactivateOrDeleteUser id], false)) := by
  refine ⟨?_, ?_, ?_⟩
  · intro h
    by_cases hs : status == userStatusDeprovisioned
    · simp [ensureUserDelete, hs, ensureUserDeleteLoop, h, List.replicate]
    · simp [ensureUserDelete, hs, ensureUserDeleteLoop, h, List.replicate]
  · intro h
    by_cases hs : status == userStatusDeprovisioned
    · simp [ensureUserDelete, hs, ensureUserDeleteLoop, h]
    · simp [ensureUserDelete, hs, ensureUserDeleteLoop, h]
  · intro hs h0 h1
    have hs' : (status == userStatusDeprovisioned) = false := by
      simpa using hs
    simp [ensureUserDelete, hs', ensureUserDeleteLoop, h0, h1]

/-- C9 witness: both pass counts and the first-failure abort evaluated on
concrete inputs. -/
theorem ensureUserDelete_passes_witness :
    ensureUserDelete "00u1" userStatusDeprovisioned (fun _ => true) =
      ([UserDeleteCall.deactivateOrDeleteUser "00u1"], true) ∧
    ensureUserDelete "00u1" statusActive (fun _ => true) =
      ([UserDeleteCall.deactivateOrDeleteUser "00u1",
        UserDeleteCall.deactivateOrDeleteUser "00u1"], true) ∧
    ensureUserDelete "00u1" statusActive (fun i => i == 0) =
      ([UserDeleteCall.deactivateOrDeleteUser "00u1",
        UserDeleteCall.deactivateOrDeleteUser "00u1"], false) :=
  ⟨by
    have h := (ensureUserDelete_passes "00u1" userStatusDeprovisioned
      (fun _ => true)).1 (fun _ => rfl)
    simpa using h,
   by
    have h := (ensureUserDelete_passes "00u1" statusActive
      (fun _ => true)).1 (fun _ => rfl)
    simpa using h,
   (ensureUserDelete_passes "00u1" statusActive (fun i => i == 0)).2.2
     (by decide) (by decide) (by decide)⟩

/-- One guarded API step of a Go handler: when the state already carries an
error the step is skipped (the Go function has returned), otherwise when
`cond` holds the call is issued and its outcome recorded. -/
def runCall {α : Type} (st : List α × Bool) (cond : Bool) (c : α) (ok : α → Bool) :
    List α × Bool :=
  if st.2 = false then st
  else if cond then (st.1 ++ [c], ok c)
  else st

/-- A sequence of guarded API steps, executed left to right. -/
def runCalls {α : Type} (ok : α → Bool) (init : List α × Bool) :
    List (Bool × α) → List α × Bool
  | [] => init
  | p :: rest => runCalls ok (runCall init p.1 p.2 ok) rest

theorem runCalls_of_failed {α : Type} (ok : α → Bool) (init : List α × Bool)
    (ps : List (Bool × α)) (h : init.2 = false) : runCalls ok init ps = init := by
  induction ps with
  | nil => rfl
  | cons p rest ih => simp [runCalls, runCall, h, ih]

theorem runCalls_take {α : Type} (ok : α → Bool) (init : List α × Bool)
    (ps : List (Bool × α)) :
    ∃ n, (runCalls ok init ps).1 =
      init.1 ++ ((ps.filter (fun p => p.1)).map (fun p => p.2)).take n := by
  induction ps generalizing init with
  | nil => exact ⟨0, by simp [runCalls]⟩
  | cons p rest ih =>
      by_cases hf : init.2 = false
      · refine ⟨0, ?_⟩
        rw [runCalls, runCall, if_pos hf, runCalls_of_failed ok init rest hf]
        simp
      · rcases hp : p.1 with _ | _
        · have hstep : runCall init p.1 p.2 ok = init := by
            simp [runCall, hf, hp]
          rw [runCalls, hstep]
          rcases ih init with ⟨n, hn⟩
          exact ⟨n, by simpa [List.filter, hp] using hn⟩
        · have hstep : runCall init p.1 p.2 ok = (init.1 ++ [p.2], ok p.2) := by
            simp [runCall, hf, hp]
          rw [runCalls, hstep]
          rcases ih (init.1 ++ [p.2], ok p.2) with ⟨n, hn⟩
          refine ⟨n + 1, ?_⟩
          rw [hn]
          simp [List.filter, hp]

theorem runCalls_of_success {α : Type} (ok : α → Bool) (init : List α × Bool)
    (ps : List (Bool × α)) (h : (runCalls ok init ps).2 = true) :
    (runCalls ok init ps).1 =
      init.1 ++ (ps.filter (fun p => p.1)).map (fun p => p.2) := by
  induction ps generalizing init with
  | nil => simp [runCalls]
  | cons p rest ih =>
      by_cases hf : init.2 = false
      · exfalso
        rw [runCalls, runCall, if_pos hf, runCalls_of_failed ok init rest hf] at h
        rw [hf] at h
        exact Bool.false_ne_true h
      · rcases hp : p.1 with _ | _
        · have hstep : runCall init p.1 p.2 ok = init := by
            simp [runCall, hf, hp]
          rw [runCalls, hstep] at h ⊢
          rw [ih init h]
          simp [List.filter, hp]
        · have hstep : runCall init p.1 p.2 ok = (init.1 ++ [p.2], ok p.2) := by
            simp [runCall, hf, hp]
          rw [runCalls, hstep] at h ⊢
          rw [ih (init.1 ++ [p.2], ok p.2) h]
          simp [List.filter, hp]

theorem runCall_stop_invariant {α : Type} (ok : α → Bool) (st : List α × Bool)
    (cond : Bool) (c : α)
    (h1 : ∀ x ∈ st.1.dropLast, ok x = true)
    (h2 : st.2 = true → ∀ x ∈ st.1, ok x = true)
    (h3 : st.2 = false → ∃ x, st.1.getLast? = some x ∧ ok x = false) :
    (∀ x ∈ (runCall st cond c ok).1.dropLast, ok x = true) ∧
    ((runCall st cond c ok).2 = true → ∀ x ∈ (runCall st cond c ok).1, ok x = true) ∧
    ((runCall st cond c ok).2 = false →
      ∃ x, (runCall st cond c ok).1.getLast? = some x ∧ ok x = false) := by
  by_cases hf : st.2 = false
  · rw [runCall, if_pos hf]
    exact ⟨h1, h2, h3⟩
  · rcases cond with _ | _
    · have hstep : runCall st false c ok = st := by simp [runCall, hf]
      rw [hstep]
      exact ⟨h1, h2, h3⟩
    · have hstep : runCall st true c ok = (st.1 ++ [c], ok c) := by
        simp [runCall, hf]
      have hall : ∀ x ∈ st.1, ok x = true :=
        h2 (Bool.not_eq_false st.2 ▸ hf)
      rw [hstep]
      refine ⟨?_, ?_, ?_⟩
      · intro x hx
        rw [List.dropLast_concat] at hx
        exact hall x hx
      · intro hok x hx
        rcases List.mem_append.mp hx with hx | hx
        · exact hall x hx
        · rw [List.mem_singleton.mp hx]
          exact hok
      · intro hbad
        exact ⟨c, by rw [List.getLast?_concat], hbad⟩

theorem runCalls_stop_at_failure {α : Type} (ok : α → Bool) (init : List α × Bool)
    (ps : List (Bool × α))
    (h1 : ∀ x ∈ init.1.dropLast, ok x = true)
    (h2 : init.2 = true → ∀ x ∈ init.1, ok x = true)
    (h3 : init.2 = false → ∃ x, init.1.getLast? = some x ∧ ok x = false) :
    (∀ x ∈ (runCalls ok init ps).1.dropLast, ok x = true) ∧
    ((runCalls ok init ps).2 = true → ∀ x ∈ (runCalls ok init ps).1, ok x = true) ∧
    ((runCalls ok init ps).2 = false →
      ∃ x, (runCalls ok init ps).1.getLast? = some x ∧ ok x = false) := by
  induction ps generalizing init with
  | nil => exact ⟨h1, h2, h3⟩
  | cons p rest ih =>
      rw [runCalls]
      rcases runCall_stop_invariant ok init p.1 p.2 h1 h2 h3 with ⟨g1, g2, g3⟩
      exact ih (runCall init p.1 p.2 ok) g1 g2 g3

/-- Configuration of the user resource, as `resourceUserCreate` reads it:
the status field, the admin-role set (`nil` when the attribute is unset, the
`convertInterfaceToStringSetNullable` convention) and the group-membership set
(`none` when `GetOkExists` reports the attribute absent). -/
structure UserConfig where
  status : String
  adminRoles : Option (List String)
  groupMemberships : Option (List String)
deriving Repr

/-- API steps issued by `resourceUserCreate`; role and group assignment are
the calls to the `assignAdminRolesToUser` / `assignGroupsToUser` helpers. -/
inductive UserCreateStep where
  | createUser
  | assignAdminRoles (roles : List String)
  | assignGroups (groups : List String)
  | updateUserStatus (status : String)
deriving DecidableEq, Repr

/-- Embedding of `resourceUserCreate` (lines 303-374): create the user; on
success assign admin roles when the attribute is set, then assign groups when
the attribute is set, then update the status when the configured status is
SUSPENDED or DEPROVISIONED; any failure returns immediately. -/
def resourceUserCreate (cfg : UserConfig) (ok : UserCreateStep → Bool) :
    List UserCreateStep × Bool :=
  runCalls ok ([UserCreateStep.createUser], ok UserCreateStep.createUser)
    [(cfg.adminRoles.isSome, UserCreateStep.assignAdminRoles (cfg.adminRoles.getD [])),
     (cfg.groupMemberships.isSome,
       UserCreateStep.assignGroups (cfg.groupMemberships.getD [])),
     (cfg.status == userStatusSuspended || cfg.status == userStatusDeprovisioned,
       UserCreateStep.updateUserStatus cfg.status)]

/-- The fixed order of steps a fully successful create performs. -/
def userCreatePlan (cfg : UserConfig) : List UserCreateStep :=
  [UserCreateStep.createUser] ++
  (match cfg.adminRoles with
   | some roles => [UserCreateStep.assignAdminRoles roles]
   | none => []) ++
  (match cfg.groupMemberships with
   | some groups => [UserCreateStep.assignGroups groups]
   | none => []) ++
  (if cfg.status == userStatusSuspended || cfg.status == userStatusDeprovisioned
   then [UserCreateStep.updateUserStatus cfg.status]
   else [])

theorem userCreatePlan_eq (cfg : UserConfig) :
    userCreatePlan cfg = UserCreateStep.createUser ::
      (([(cfg.adminRoles.isSome,
          UserCreateStep.assignAdminRoles (cfg.adminRoles.getD [])),
         (cfg.groupMemberships.isSome,
           UserCreateStep.assignGroups (cfg.groupMemberships.getD [])),
         (cfg.status == userStatusSuspended || cfg.status == userStatusDeprovisioned,
           UserCreateStep.updateUserStatus cfg.status)].filter
            (fun p => p.1)).map (fun p => p.2)) := by
  rcases cfg with ⟨status, roles, groups⟩
  rcases roles with _ | roles <;> rcases groups with _ | groups <;>
    by_cases hs : (status == userStatusSuspended || status == userStatusDeprovisioned) =
      true <;>
    simp [userCreatePlan, List.filter, hs]

/-- C4: the trace of a run of resourceUserCreate is always an initial segment
of the plan create-then-roles-then-groups-then-status (so a later step is
never issued before an earlier one), a successful run performs the plan in
full, every issued step except possibly the last succeeded (so no step is
ever issued after a failed one), and a failed run's trace ends exactly at the
step that failed. -/
theorem resourceUserCreate_order (cfg : UserConfig) (ok : UserCreateStep → Bool) :
    (∃ n, (resourceUserCreate cfg ok).1 = (userCreatePlan cfg).take n) ∧
    ((resourceUserCreate cfg ok).2 = true →
      (resourceUserCreate cfg ok).1 = userCreatePlan cfg) ∧
    (∀ c ∈ (resourceUserCreate cfg ok).1.dropLast, ok c = true) ∧
    ((resourceUserCreate cfg ok).2 = false →
      ∃ c, (resourceUserCreate cfg ok).1.getLast? = some c ∧ ok c = false) := by
  have hinv := runCalls_stop_at_failure ok
    ([UserCreateStep.createUser], ok UserCreateStep.createUser)
    [(cfg.adminRoles.isSome, UserCreateStep.assignAdminRoles (cfg.adminRoles.getD [])),
     (cfg.groupMemberships.isSome,
       UserCreateStep.assignGroups (cfg.groupMemberships.getD [])),
     (cfg.status == userStatusSuspended || cfg.status == userStatusDeprovisioned,
       UserCreateStep.updateUserStatus cfg.status)]
    (by intro x hx; simp at hx)
    (by
      intro hok x hx
      rw [List.mem_singleton.mp hx]
      exact hok)
    (by
      intro hbad
      exact ⟨UserCreateStep.createUser, by simp, hbad⟩)
  refine ⟨?_, ?_, hinv.1, hinv.2.2⟩
  · by_cases hc : ok UserCreateStep.createUser = false
    · refine ⟨1, ?_⟩
      rw [resourceUserCreate, runCalls_of_failed _ _ _ hc, userCreatePlan_eq]
      simp
    · rcases runCalls_take ok ([UserCreateStep.createUser], ok UserCreateStep.createUser)
        [(cfg.adminRoles.isSome, UserCreateStep.assignAdminRoles (cfg.adminRoles.getD [])),
         (cfg.groupMemberships.isSome,
           UserCreateStep.assignGroups (cfg.groupMemberships.getD [])),
         (cfg.status == userStatusSuspended || cfg.status == userStatusDeprovisioned,
           UserCreateStep.updateUserStatus cfg.status)] with ⟨n, hn⟩
      refine ⟨n + 1, ?_⟩
      rw [resourceUserCreate, hn, userCreatePlan_eq]
      simp
  · intro h
    rw [resourceUserCreate,
      runCalls_of_success ok ([UserCreateStep.createUser], ok UserCreateStep.createUser) _ h,
      userCreatePlan_eq]
    simp

/-- C4 witness: the ordering property evaluated on a concrete configuration
with roles and groups set and status SUSPENDED, once with every call
succeeding (full plan performed) and once with the role assignment failing
(the trace ends at the failing step). -/
theorem resourceUserCreate_order_witness :
    ((resourceUserCreate
        { status := userStatusSuspended, adminRoles := some ["APP_ADMIN"],
          groupMemberships := some ["g1"] } (fun _ => true)).2 = true ∧
     (resourceUserCreate
        { status := userStatusSuspended, adminRoles := some ["APP_ADMIN"],
          groupMemberships := some ["g1"] } (fun _ => true)).1 =
      userCreatePlan
        { status := userStatusSuspended, adminRoles := some ["APP_ADMIN"],
          groupMemberships := some ["g1"] }) ∧
    (∃ c, (resourceUserCreate
        { status := userStatusSuspended, adminRoles := some ["APP_ADMIN"],
          groupMemberships := some ["g1"] }
        (fun s => match s with
          | UserCreateStep.assignAdminRoles _ => false
          | _ => true)).1.getLast? = some c ∧
      (fun s => match s with
        | UserCreateStep.assignAdminRoles _ => false
        | _ => true : UserCreateStep → Bool) c = false) :=
  ⟨⟨by decide,
    (resourceUserCreate_order
       { status := userStatusSuspended, adminRoles := some ["APP_ADMIN"],
         groupMemberships := some ["g1"] } (fun _ => true)).2.1 (by decide)⟩,
   (resourceUserCreate_order
      { status := userStatusSuspended, adminRoles := some ["APP_ADMIN"],
        groupMemberships := some ["g1"] }
      (fun s => match s with
        | UserCreateStep.assignAdminRoles _ => false
        | _ => true)).2.2.2 (by decide)⟩

/-- Inputs `resourceUserUpdate` reads from the resource state: the configured
status and the change flags the Terraform diff reports (`profileChange` is
`hasProfileChange(d)`, true when any profile key changed). -/
structure UserUpdateInput where
  status : String
  statusChange : Bool
  roleChange : Bool
  groupChange : Bool
  profileChange : Bool
  passwordChange : Bool
  recoveryQuestionChange : Bool
  recoveryAnswerChange : Bool
deriving Repr

/-- API calls issued by `resourceUserUpdate`. -/
inductive UserUpdateCall where
  | updateUserStatus (status : String)
  | updateUser
  | updateAdminRolesOnUser
  | updateGroupsOnUser
  | changePassword
  | changeRecoveryQuestion
deriving DecidableEq, Repr

/-- A guard in the middle of a handler: when no error occurred yet and `cond`
holds, the handler returns an error without issuing a call. -/
def guardErr {α : Type} (st : List α × Bool) (cond : Bool) : List α × Bool :=
  if st.2 = false then st
  else if cond then (st.1, false)
  else st

/-- Embedding of `resourceUserUpdate` (lines 414-516): the STAGED guard comes
first and returns before any call; then the status update runs first, then
the DEPROVISIONED-with-profile-change guard, then the profile, role, group,
password and recovery-credential updates, each conditional on its change flag
and each aborting the rest on failure. -/
def resourceUserUpdate (inp : UserUpdateInput) (ok : UserUpdateCall → Bool) :
    List UserUpdateCall × Bool :=
  if inp.status == userStatusStaged && inp.statusChange then ([], false)
  else
    let st := runCall ([], true) inp.statusChange
      (UserUpdateCall.updateUserStatus inp.status) ok
    let st := guardErr st (inp.status == userStatusDeprovisioned && inp.profileChange)
    let st := runCalls ok st
      [(inp.profileChange, UserUpdateCall.updateUser),
       (inp.roleChange, UserUpdateCall.updateAdminRolesOnUser),
       (inp.groupChange, UserUpdateCall.updateGroupsOnUser),
       (inp.passwordChange, UserUpdateCall.changePassword),
       (inp.recoveryQuestionChange || inp.recoveryAnswerChange,
         UserUpdateCall.changeRecoveryQuestion)]
    st

/-- C8: when the configured status is STAGED and the status changed, the
update returns an error having issued no API call at all. -/
theorem resourceUserUpdate_staged (inp : UserUpdateInput)
    (ok : UserUpdateCall → Bool) (h1 : inp.status = userStatusStaged)
    (h2 : inp.statusChange = true) :
    resourceUserUpdate inp ok = ([], false) := by
  rw [resourceUserUpdate, if_pos]
  rw [h1, h2]
  simp

/-- C8 witness: the STAGED guard evaluated on a concrete input. -/
theorem resourceUserUpdate_staged_witness :
    resourceUserUpdate
      { status := userStatusStaged, statusChange := true, roleChange := true,
        groupChange := true, profileChange := true, passwordChange := true,
        recoveryQuestionChange := true, recoveryAnswerChange := true }
      (fun _ => true) = ([], false) :=
  resourceUserUpdate_staged
    { status := userStatusStaged, statusChange := true, roleChange := true,
      groupChange := true, profileChange := true, passwordChange := true,
      recoveryQuestionChange := true, recoveryAnswerChange := true }
    (fun _ => true) rfl rfl

/-- C5 counterexample: `ensureUserDelete` on an ACTIVE user with every call
succeeding issues two `DeactivateOrDeleteUser` HTTP requests, refuting the
claim that no single function issues more than one HTTP request. -/
theorem ensureUserDelete_two_requests :
    ¬ ((ensureUserDelete "00u1" statusActive (fun _ => true)).1.length ≤ 1) := by
  decide

theorem ensureUserDeleteLoop_length_le (id : String) (ok : Nat → Bool) :
    ∀ n i, (ensureUserDeleteLoop id ok n i).1.length ≤ n := by
  intro n
  induction n with
  | zero => intro i; simp [ensureUserDeleteLoop]
  | succ m ih =>
      intro i
      rw [ensureUserDeleteLoop]
      by_cases h : ok i = true
      · simpa [h, Nat.succ_le_succ_iff] using ih (i + 1)
      · simp [h]

/-- C5 as amended: the loop-based helpers issue one HTTP request per loop
iteration rather than at most one per function: ensureUserDelete issues at
most two DeactivateOrDeleteUser requests, grantOAuthApiScopes at most one
GrantConsentToScope request per scope grant, and revokeOAuthApiScope at most
one RevokeScopeConsentGrant request per grant id. -/
theorem sampled_functions_request_bounds :
    (∀ id status ok, (ensureUserDelete id status ok).1.length ≤ 2) ∧
    (∀ appId grants ok,
      (grantOAuthApiScopes appId grants ok).1.length ≤ grants.length) ∧
    (∀ appId ids ok,
      (revokeOAuthApiScope appId ids ok).1.length ≤ ids.length) := by
  refine ⟨?_, ?_, ?_⟩
  · intro id status ok
    have h := ensureUserDeleteLoop_length_le id ok
      (if status == userStatusDeprovisioned then 1 else 2) 0
    refine le_trans h ?_
    by_cases hs : status == userStatusDeprovisioned <;> simp [hs]
  · intro appId grants ok
    induction grants with
    | nil => simp [grantOAuthApiScopes]
    | cons g rest ih =>
        rw [grantOAuthApiScopes]
        by_cases h : ok (OAuthApiCall.grantConsentToScope appId g) = true
        · simpa [h, Nat.succ_le_succ_iff] using ih
        · simp [h]
  · intro appId ids ok
    induction ids with
    | nil => simp [revokeOAuthApiScope]
    | cons i rest ih =>
        rw [revokeOAuthApiScope]
        by_cases h : ok (OAuthApiCall.revokeScopeConsentGrant appId i) = true
        · simpa [h, Nat.succ_le_succ_iff] using ih
        · simp [h]

/-- One response of the `ListUsers` endpoint: the page of users it returned
and the after-token `sdk.GetAfterParam` extracts from its next link ("" when
there is no next link). -/
structure ListUsersResponse where
  users : List String
  afterToken : String
deriving DecidableEq, Repr

/-- Embedding of `collectUsers` (data_source_okta_users.go, lines 80-94) over
an explicit finite sequence of server responses: each call to `ListUsers`
consumes the next response, appends its users to the accumulated results, and
recurses with the response's after-token until a response carries none.
`none` models the endpoint failing to answer a follow-up call. -/
def collectUsers (results : List String) :
    List ListUsersResponse → Option (List String)
  | [] => none
  | r :: rest =>
      let acc := results ++ r.users
      if r.afterToken == "" then some acc else collectUsers acc rest

/-- A response sequence as the pagination loop expects it: nonempty, every
response before the last carries an after-token, the last carries none. -/
def wellFormedPages : List ListUsersResponse → Bool
  | [] => false
  | r :: rest =>
      match rest with
      | [] => r.afterToken == ""
      | _ :: _ => (r.afterToken != "") && wellFormedPages rest

/-- C6: on a finite well-formed page sequence, collectUsers returns the
accumulator extended with the concatenation of all pages in page order. -/
theorem collectUsers_concat (results : List String)
    (pages : List ListUsersResponse) (h : wellFormedPages pages = true) :
    collectUsers results pages =
      some (results ++ (pages.map (fun r => r.users)).flatten) := by
  induction pages generalizing results with
  | nil => exact absurd h (by simp [wellFormedPages])
  | cons r rest ih =>
      cases rest with
      | nil =>
          have ht : (r.afterToken == "") = true := by
            simpa [wellFormedPages] using h
          simp [collectUsers, ht]
      | cons r2 rest2 =>
          have hw : (r.afterToken != "") = true ∧
              wellFormedPages (r2 :: rest2) = true := by
            simpa [wellFormedPages, Bool.and_eq_true] using h
          have ht : (r.afterToken == "") = false := by
            simpa using hw.1
          rw [collectUsers]
          simp only [ht, if_false]
          rw [ih (results ++ r.users) hw.2]
          simp

/-- C6 witness: a concrete two-page listing is concatenated in page order. -/
theorem collectUsers_concat_witness :
    collectUsers []
      [{ users := ["u1", "u2"], afterToken := "t" },
       { users := ["u3"], afterToken := "" }] =
      some ["u1", "u2", "u3"] := by
  have h := collectUsers_concat []
    [{ users := ["u1", "u2"], afterToken := "t" },
     { users := ["u3"], afterToken := "" }] (by decide)
  simpa using h

/-- Embedding of `collectUsers` over a server modelled as a function from the
after-token in the query parameters to the returned page and next after-token,
with an explicit fuel bound on the number of `ListUsers` calls; `none` means
the fuel ran out before a response without an after-token arrived. -/
def collectUsersPaged (srv : String → List String × String) :
    Nat → List String → String → Option (List String)
  | 0, _, _ => none
  | Nat.succ n, results, tok =>
      let page := srv tok
      let acc := results ++ page.1
      if page.2 == "" then some acc else collectUsersPaged srv n acc page.2

/-- The after-token in force before the (n+1)-st `ListUsers` call. -/
def tokenAt (srv : String → List String × String) (tok : String) : Nat → String
  | 0 => tok
  | n + 1 => (srv (tokenAt srv tok n)).2

theorem tokenAt_shift (srv : String → List String × String) (tok : String)
    (n : Nat) : tokenAt srv tok (n + 1) = tokenAt srv (srv tok).2 n := by
  induction n with
  | zero => rfl
  | succ m ih => rw [tokenAt, ih, tokenAt]

/-- C7: when the server's after-token chain reaches the empty token after n
steps, n calls' worth of fuel already makes the recursion of collectUsers
return: the recursion is well-founded on the remaining number of pages. -/
theorem collectUsersPaged_terminates (srv : String → List String × String)
    (n : Nat) (tok : String) (results : List String)
    (hn : 1 ≤ n) (h : tokenAt srv tok n = "") :
    ∃ res, collectUsersPaged srv n results tok = some res := by
  induction n generalizing tok results with
  | zero => exact absurd hn (by simp)
  | succ m ih =>
      rw [collectUsersPaged]
      by_cases he : ((srv tok).2 == "") = true
      · exact ⟨results ++ (srv tok).1, by simp [he]⟩
      · have hm : tokenAt srv (srv tok).2 m = "" := by
          rw [← tokenAt_shift]
          exact h
        have hm1 : 1 ≤ m := by
          rcases Nat.eq_zero_or_pos m with h0 | h0
          · exfalso
            rw [h0] at hm
            rw [tokenAt] at hm
            simp [hm] at he
          · exact h0
        rcases ih (srv tok).2 (results ++ (srv tok).1) hm1 hm with ⟨res, hres⟩
        exact ⟨res, by simp [he, hres]⟩

/-- C7 witness: a concrete server whose token chain ends after two calls. -/
theorem collectUsersPaged_terminates_witness :
    ∃ res, collectUsersPaged
      (fun t => if t == "" then (["u1"], "t1") else (["u2"], "")) 2 [] "" =
      some res :=
  collectUsersPaged_terminates
    (fun t => if t == "" then (["u1"], "t1") else (["u2"], "")) 2 "" []
    (by decide) (by decide)

end Okta
